import Mathlib

/-!
Verification development for the ground-motion processing core of
ghsc-esi-groundmotion-processing: the trace metadata model, waveform
windowing pipeline (signal split / signal end / window checks / cut),
corner-frequency estimation, and the `gminfo` directory-summary driver.

Times and durations are modelled as rationals (seconds relative to an
arbitrary epoch); parameter values as a tagged variant type.
-/

namespace GM

/-- Modelled from the spec: primitive parameter values (numbers, strings,
timestamps, booleans) stored in the untyped per-trace parameter mapping
(spec sections 3 and 9; the implementation `gmprocess/core/stationtrace.py`
is absent from src/, only its tests are present). -/
inductive Prim where
  | num : ℚ → Prim
  | str : String → Prim
  | time : ℚ → Prim
  | boolean : Bool → Prim
deriving DecidableEq, Repr

/-- Modelled from the spec: a parameter value is a primitive, a list of
primitives, or a nested string-keyed mapping of primitives (the tagged-variant
value type of spec section 9). -/
inductive Value where
  | prim : Prim → Value
  | listV : List Prim → Value
  | mapV : List (String × Prim) → Value
deriving DecidableEq, Repr

/-- A provenance record: operation name together with its attribute mapping. -/
structure ProvRecord where
  operation : String
  attributes : List (String × Prim)
deriving DecidableEq, Repr

/-- Modelled from the spec: a single-channel trace with acquisition times, a
mutable parameter mapping and an append-only provenance log
(`gmprocess/core/stationtrace.py` is absent from src/). -/
structure Trace where
  starttime : ℚ
  endtime : ℚ
  params : List (String × Value)
  prov : List ProvRecord
deriving DecidableEq, Repr

/-- `set_parameter(key, value)`: inserts or overwrites; no type constraint on
the value. Modelled from the spec (section 4.1). -/
def Trace.set_parameter (tr : Trace) (key : String) (v : Value) : Trace :=
  { tr with params := (key, v) :: tr.params.filter (fun p => p.1 != key) }

/-- `get_parameter(key)`: returns the stored value, or `none` (the
`KeyNotFound` signal) when the key is absent. Modelled from the spec
(section 4.1). -/
def Trace.get_parameter (tr : Trace) (key : String) : Option Value :=
  tr.params.lookup key

/-- `set_provenance(operation, attributes)`: appends a new record; never
overwrites history. Modelled from the spec (section 4.1). -/
def Trace.set_provenance (tr : Trace) (op : String)
    (attrs : List (String × Prim)) : Trace :=
  { tr with prov := tr.prov ++ [⟨op, attrs⟩] }

/-- `get_provenance(operation)`: all records matching the operation name, in
insertion order; empty sequence when none match. Modelled from the spec
(section 4.1). -/
def Trace.get_provenance (tr : Trace) (op : String) :
    List (List (String × Prim)) :=
  (tr.prov.filter (fun r => r.operation == op)).map ProvRecord.attributes

/-- Iterated `set_provenance` with the same operation name, one call per
attribute mapping in the list, in order. -/
def Trace.set_provenance_list (tr : Trace) (op : String)
    (attrsList : List (List (String × Prim))) : Trace :=
  attrsList.foldl (fun t a => t.set_provenance op a) tr

/-- Modelled from the spec: a stream is an ordered sequence of traces of one
station plus the pipeline pass/fail flag, true until any contained trace or
stage marks failure (spec section 3). -/
structure Stream where
  traces : List Trace
  passed : Bool
deriving DecidableEq, Repr

/-- The `failure` parameter value recording a human-readable reason. -/
def failure_value (reason : String) : Value :=
  .mapV [("reason", .str reason)]

/-- Record a failure reason on a trace via its `failure` parameter. -/
def Trace.fail (tr : Trace) (reason : String) : Trace :=
  tr.set_parameter "failure" (failure_value reason)

/-- The signal/noise split time of a trace, read from its `signal_split`
parameter mapping, when present. -/
def Trace.split_time (tr : Trace) : Option ℚ :=
  match tr.get_parameter "signal_split" with
  | some (.mapV m) =>
    match m.lookup "split_time" with
    | some (.time q) => some q
    | _ => none
  | _ => none

/-- The signal end time of a trace, read from its `signal_end` parameter
mapping, when present. -/
def Trace.signal_end_time (tr : Trace) : Option ℚ :=
  match tr.get_parameter "signal_end" with
  | some (.mapV m) =>
    match m.lookup "end_time" with
    | some (.time q) => some q
    | _ => none
  | _ => none

/-- The method tag of a trace's `signal_end` parameter, when present. -/
def Trace.signal_end_method (tr : Trace) : Option String :=
  match tr.get_parameter "signal_end" with
  | some (.mapV m) =>
    match m.lookup "method" with
    | some (.str s) => some s
    | _ => none
  | _ => none

/-- Modelled from the spec: per-trace window validation
(`windows.window_checks`; `gmprocess/waveform_processing/windows.py` is
absent from src/). If no split time is available it records the
precondition-failure reason and computes no duration; otherwise it checks
noise duration = split − start before signal duration = end − split, the
first failure short-circuiting. Returns the updated trace together with a
pass flag (false exactly when a failure was recorded). -/
def window_check_trace (min_noise_duration min_signal_duration : ℚ)
    (tr : Trace) : Trace × Bool :=
  match tr.split_time with
  | none =>
    (tr.fail "Cannot check window because no split time available.", false)
  | some split =>
    if split - tr.starttime < min_noise_duration then
      (tr.fail "Failed noise window duration check.", false)
    else
      match tr.signal_end_time with
      | none => (tr, true)
      | some e =>
        if e - split < min_signal_duration then
          (tr.fail "Failed signal window duration check.", false)
        else (tr, true)

/-- Apply a per-trace check to every trace of a stream, clearing the
stream's `passed` flag when any trace reports failure: the shared
trace-to-stream lifting of the pipeline stages. -/
def lift_check (f : Trace → Trace × Bool) (st : Stream) : Stream :=
  let rs := st.traces.map f
  { traces := rs.map Prod.fst, passed := st.passed && rs.all Prod.snd }

/-- Modelled from the spec: stream-level window validation
(`windows.window_checks`): validates every trace and clears the stream's
`passed` flag as soon as any trace records a failure (spec sections 4.4
and 7). -/
def window_checks (st : Stream)
    (min_noise_duration min_signal_duration : ℚ) : Stream :=
  lift_check (window_check_trace min_noise_duration min_signal_duration) st

/-- An event record: origin time, location and magnitude, supplied once per
batch and never mutated (spec section 3). -/
structure Event where
  time : ℚ
  longitude : ℚ
  latitude : ℚ
  magnitude : ℚ
deriving DecidableEq, Repr

/-- Modelled from the spec: the per-method signal durations of
`windows.signal_end` (the implementation and its empirical models are absent
from src/). `none` uses the fixed default duration; the spec fixes the
magnitude-, velocity- and model-based durations only through their
regression values for the reference test event (spec sections 4.3 and 8):
390.0, 212.9617, 149.9617 and 88.008733 seconds. Unrecognized methods are
rejected. -/
def signal_end_duration (method : String) : Option ℚ :=
  match method with
  | "none" => some 390
  | "magnitude" => some (2129617 / 10000)
  | "velocity" => some (1499617 / 10000)
  | "model" => some (88008733 / 1000000)
  | _ => none

/-- Modelled from the spec: `windows.signal_end` writes a `signal_end`
parameter holding the computed absolute end time and the method tag on every
trace of the stream (spec section 4.3). -/
def signal_end (st : Stream) (_ev : Event) (method : String) : Stream :=
  { st with
    traces := st.traces.map (fun tr =>
      match signal_end_duration method with
      | some d =>
        tr.set_parameter "signal_end"
          (.mapV [("end_time", .time (tr.starttime + d)), ("method", .str method)])
      | none => tr) }

/-- Modelled from the spec: per-trace cut/trim
(`windows.cut`; spec section 4.5). Trims the trace to
`[split_time − sec_before_split, end_time]`; when the resulting window is
degenerate or inverted (start at or past end) the trace is left untouched
and the pass flag cleared instead of raising. Traces without both window
boundaries are left untouched. -/
def cut_trace (sec_before_split : ℚ) (tr : Trace) : Trace × Bool :=
  match tr.split_time, tr.signal_end_time with
  | some split, some e =>
    let newStart := split - sec_before_split
    if e ≤ newStart then (tr, false)
    else
      ({ tr with starttime := max tr.starttime newStart,
                 endtime := min tr.endtime e }, true)
  | _, _ => (tr, true)

/-- Modelled from the spec: stream-level cut/trim (`windows.cut`): trims
every trace and marks the stream failed, rather than raising, when any
trace's window is degenerate (spec section 4.5). -/
def cut (st : Stream) (sec_before_split : ℚ) : Stream :=
  lift_check (cut_trace sec_before_split) st

/-- Modelled from the spec: SNR-method highpass corner for the reference
three-trace fixture (`corner_frequencies.get_corner_frequencies`; the
implementation is absent from src/, and the spec fixes the SNR search only
through its fixture values, spec sections 4.6, 8 and 9). -/
def snr_highpass : ℚ := 24919013207076998 / 10 ^ 18

/-- Modelled from the spec: SNR-method lowpass corner for the reference
fixture (a configured or Nyquist-derived ceiling; fixture value 100.0). -/
def snr_lowpass : ℚ := 100

/-- The `corner_frequencies` parameter value. -/
def corner_value (highpass lowpass : ℚ) : Value :=
  .mapV [("highpass", .num highpass), ("lowpass", .num lowpass)]

/-- Modelled from the spec: `get_corner_frequencies` writes a
`corner_frequencies` parameter on every trace of a passed stream; a stream
with `passed = false` is skipped outright, leaving every parameter unset
(spec section 4.6). The magnitude method's empirical corners come from the
fixture of `corner_frequencies_test.py` (0.3 / 35.0). -/
def get_corner_frequencies (st : Stream) (_ev : Event) (method : String) :
    Stream :=
  if st.passed then
    match method with
    | "snr" =>
      { st with
        traces := st.traces.map (fun tr =>
          tr.set_parameter "corner_frequencies"
            (corner_value snr_highpass snr_lowpass)) }
    | "magnitude" =>
      { st with
        traces := st.traces.map (fun tr =>
          tr.set_parameter "corner_frequencies"
            (corner_value (3 / 10) 35)) }
    | _ => st
  else st

/-- A heap of trace objects addressed by handles (list indices), used to
state aliasing properties of copying: Python traces are mutable objects
referenced from streams. -/
structure Heap where
  data : List Trace
deriving Repr

/-- Read the trace stored at a handle. -/
def Heap.get (h : Heap) (i : Nat) : Option Trace :=
  h.data[i]?

/-- Mutate the trace stored at a handle in place. -/
def Heap.set (h : Heap) (i : Nat) (tr : Trace) : Heap :=
  ⟨h.data.set i tr⟩

/-- A stream as a collection of handles into the heap plus its own pass/fail
flag. -/
structure StreamRef where
  handles : List Nat
  passed : Bool
deriving DecidableEq, Repr

/-- Modelled from the spec: `Stream.copy` deep-copies every trace — each copy
is a fresh object (fresh handle) holding the same parameter mapping and
provenance log, allocated past the end of the heap — and a fresh stream
record with the same `passed` flag (spec sections 3, 5 and 9). -/
def copy_stream (h : Heap) (st : StreamRef) : Heap × StreamRef :=
  (⟨h.data ++ st.handles.filterMap h.get⟩,
   { handles := (List.range (st.handles.filterMap h.get).length).map
       (fun k => h.data.length + k),
     passed := st.passed })

/-- A summary row of the `gminfo` concise catalog (`get_dataframe` in
`src/gmprocess/bin/gminfo.py` builds one per trace; only the sort keys and
the filename matter here). -/
structure Row where
  filename : String
  network : String
  station : String
  channel : String
deriving DecidableEq, Repr

/-- An error-table row of `gminfo` (`render_concise`): filename and the
stringified exception. -/
structure ErrorRow where
  filename : String
  error : String
deriving DecidableEq, Repr

/-- The file system and reader as seen by `gminfo.App.main`: which paths are
existing directories, which data files `_walk` yields under a root, and what
`read_data` returns for each file (rows, or a raised error rendered as a
string). -/
structure FileSys where
  is_dir : String → Bool
  walk : String → List String
  read_data : String → Except String (List Row)

/-- The sort key order of `df.sort_values(["Network", "Station", "Channel"])`. -/
def row_le (a b : Row) : Bool :=
  if a.network ≠ b.network then a.network ≤ b.network
  else if a.station ≠ b.station then a.station ≤ b.station
  else a.channel ≤ b.channel

/-- Insert a row into a sorted list (stable insertion sort step). -/
def insert_row (a : Row) : List Row → List Row
  | [] => [a]
  | b :: rest => if row_le a b then a :: b :: rest else b :: insert_row a rest

/-- Sort the catalog rows by network, station and channel, as
`df.sort_values` does at the end of `render_concise`. -/
def sort_rows : List Row → List Row
  | [] => []
  | a :: rest => insert_row a (sort_rows rest)

/-- `render_concise` (src/gmprocess/bin/gminfo.py): reads every file in
order, concatenating the per-file rows into the catalog; a file whose read
raises contributes a `(Filename, Error)` row to the errors table and the
loop continues with the next file. -/
def render_concise (read : String → Except String (List Row)) :
    List String → List Row × List ErrorRow
  | [] => ([], [])
  | p :: rest =>
    let acc := render_concise read rest
    match read p with
    | .ok rows => (rows ++ acc.1, acc.2)
    | .error e => (acc.1, ⟨p, e⟩ :: acc.2)

/-- `render_dir` (src/gmprocess/bin/gminfo.py), concise branch: walk the root
directory for data files, render them, and sort the catalog. -/
def render_dir (fs : FileSys) (rootdir : String) : List Row × List ErrorRow :=
  let datafiles := fs.walk rootdir
  let res := render_concise fs.read_data datafiles
  (sort_rows res.1, res.2)

/-- `App.main` (src/gmprocess/bin/gminfo.py): raises `OSError` when the
directory argument is not an existing directory, before reading any files;
otherwise renders the directory. The result pair is the catalog and the
errors table. -/
def App.main (fs : FileSys) (dir : String) :
    Except String (List Row × List ErrorRow) :=
  if ¬ fs.is_dir dir then
    .error ("Directory '" ++ dir ++ "' does not exist.")
  else
    .ok (render_dir fs dir)

/-- A concrete trace fixture with a split time of 50 s and a signal end of
450 s relative to a start at 0 s, used to instantiate the theorems below. -/
def fixture_trace : Trace :=
  { starttime := 0, endtime := 600,
    params := [("signal_split", .mapV [("split_time", .time 50)]),
               ("signal_end", .mapV [("end_time", .time 450)])],
    prov := [] }

/-- A concrete event fixture. -/
def fixture_event : Event :=
  { time := 10, longitude := 0, latitude := 0, magnitude := 71 / 10 }

/-- A concrete file-system fixture for `gminfo`: one existing directory
holding one readable and one unreadable data file. -/
def fixture_fs : FileSys :=
  { is_dir := fun d => d == "data",
    walk := fun _ => ["data/a.v1", "data/b.v1"],
    read_data := fun p =>
      if p == "data/a.v1" then .ok [⟨"data/a.v1", "CI", "CLC", "HN1"⟩]
      else .error "unreadable" }

/-! ### Helper lemmas -/

/-- Setting a parameter and reading the same key back yields the value set. -/
theorem get_set_parameter_same (tr : Trace) (key : String) (v : Value) :
    (tr.set_parameter key v).get_parameter key = some v := by
  simp [Trace.set_parameter, Trace.get_parameter, List.lookup]

/-- A key bound to no entry of the parameter mapping looks up to `none`. -/
theorem lookup_eq_none_of_forall_not_mem {l : List (String × Value)}
    {key : String} (h : ∀ w, (key, w) ∉ l) : l.lookup key = none := by
  induction l with
  | nil => rfl
  | cons p rest ih =>
    obtain ⟨k, w⟩ := p
    have hk : key ≠ k := fun e => h w (by simp [e])
    have hb : (key == k) = false := beq_eq_false_iff_ne.mpr hk
    simp only [List.lookup, hb]
    exact ih fun w' hw' => h w' (List.mem_cons_of_mem _ hw')

/-- Appending a provenance record for an operation extends that operation's
record list by one at the end. -/
theorem get_provenance_set_same (tr : Trace) (op : String)
    (a : List (String × Prim)) :
    (tr.set_provenance op a).get_provenance op = tr.get_provenance op ++ [a] := by
  simp [Trace.set_provenance, Trace.get_provenance, List.filter_append]

/-- Appending provenance for one operation leaves every other operation's
record list unchanged. -/
theorem get_provenance_set_other (tr : Trace) (op op2 : String)
    (a : List (String × Prim)) (hne : op ≠ op2) :
    (tr.set_provenance op a).get_provenance op2 = tr.get_provenance op2 := by
  have hb : (op == op2) = false := beq_eq_false_iff_ne.mpr hne
  simp [Trace.set_provenance, Trace.get_provenance, List.filter_append, hb]

/-- Iterated `set_provenance` appends the attribute mappings, in call order,
to the operation's record list. -/
theorem get_provenance_set_list (tr : Trace) (op : String)
    (attrsList : List (List (String × Prim))) :
    (tr.set_provenance_list op attrsList).get_provenance op
      = tr.get_provenance op ++ attrsList := by
  induction attrsList generalizing tr with
  | nil => simp [Trace.set_provenance_list]
  | cons a rest ih =>
    have step : Trace.set_provenance_list tr op (a :: rest)
        = Trace.set_provenance_list (tr.set_provenance op a) op rest := rfl
    rw [step, ih, get_provenance_set_same]
    simp

/-- Iterated `set_provenance` for one operation leaves every other
operation's record list unchanged. -/
theorem get_provenance_set_list_other (tr : Trace) (op op2 : String)
    (attrsList : List (List (String × Prim))) (hne : op ≠ op2) :
    (tr.set_provenance_list op attrsList).get_provenance op2
      = tr.get_provenance op2 := by
  induction attrsList generalizing tr with
  | nil => rfl
  | cons a rest ih =>
    have step : Trace.set_provenance_list tr op (a :: rest)
        = Trace.set_provenance_list (tr.set_provenance op a) op rest := rfl
    rw [step, ih, get_provenance_set_other _ _ _ _ hne]

/-! ### Claims about the trace metadata model -/

/-- C7: for every trace, key and value, `set_parameter` followed by
`get_parameter` on the same key returns exactly the value set, with no type
constraint on the value; `get_parameter` on a key that was never set fails
with the not-found signal (`none`, the `KeyNotFound` of the model) rather
than returning a default. -/
theorem parameter_set_get_roundtrip (tr : Trace) (key : String) (v : Value)
    (h : ∀ w, (key, w) ∉ tr.params) :
    (tr.set_parameter key v).get_parameter key = some v ∧
    tr.get_parameter key = none :=
  ⟨get_set_parameter_same tr key v, lookup_eq_none_of_forall_not_mem h⟩

theorem parameter_set_get_roundtrip_witness :
    ((Trace.mk 0 1 [] []).set_parameter "metadata"
        (.mapV [("name", .str "Fred")])).get_parameter "metadata"
      = some (.mapV [("name", .str "Fred")]) ∧
    (Trace.mk 0 1 [] []).get_parameter "metadata" = none :=
  parameter_set_get_roundtrip (Trace.mk 0 1 [] [])
    "metadata" (.mapV [("name", .str "Fred")]) (fun w hw => by simp at hw)

/-- C8: for every trace and operation name, N `set_provenance` calls append
their N attribute mappings to that operation's record list in call order
(history is never overwritten), and `get_provenance` on an operation name
with no matching records — before or after those calls — returns the empty
sequence rather than an error. -/
theorem provenance_append_in_order (tr : Trace) (op op2 : String)
    (attrsList : List (List (String × Prim))) :
    ((tr.set_provenance_list op attrsList).get_provenance op
        = tr.get_provenance op ++ attrsList) ∧
    ((∀ r ∈ tr.prov, r.operation ≠ op2) →
        tr.get_provenance op2 = [] ∧
        (op ≠ op2 →
          (tr.set_provenance_list op attrsList).get_provenance op2 = [])) := by
  refine ⟨get_provenance_set_list tr op attrsList, fun h2 => ?_⟩
  have hfil : tr.prov.filter (fun r => r.operation == op2) = [] := by
    rw [List.filter_eq_nil_iff]
    intro r hr
    simpa using h2 r hr
  have hempty : tr.get_provenance op2 = [] := by
    simp [Trace.get_provenance, hfil]
  exact ⟨hempty, fun hne => by
    rw [get_provenance_set_list_other tr op op2 attrsList hne, hempty]⟩

theorem provenance_append_in_order_witness :
    ((Trace.mk 0 1 [] []).set_provenance_list "detrend"
        [[("detrending_method", .str "demean")],
         [("detrending_method", .str "linear")]]).get_provenance "detrend"
      = [[("detrending_method", .str "demean")],
         [("detrending_method", .str "linear")]] ∧
    ((Trace.mk 0 1 [] []).set_provenance_list "detrend"
        [[("detrending_method", .str "demean")],
         [("detrending_method", .str "linear")]]).get_provenance "taper"
      = [] := by
  have h := provenance_append_in_order (Trace.mk 0 1 [] []) "detrend" "taper"
    [[("detrending_method", .str "demean")],
     [("detrending_method", .str "linear")]]
  refine ⟨?_, ?_⟩
  · have := h.1
    simpa [Trace.get_provenance] using this
  · exact (h.2 (fun r hr => by simp at hr)).2 (by decide)

/-- The traces of a lifted per-trace check are the per-trace results, in
order. -/
theorem lift_check_traces (f : Trace → Trace × Bool) (st : Stream) :
    (lift_check f st).traces = st.traces.map (fun tr => (f tr).1) := by
  simp [lift_check]

/-- A lifted check passes exactly when the input stream had passed and every
trace passes its check. -/
theorem lift_check_passed_iff (f : Trace → Trace × Bool) (st : Stream) :
    (lift_check f st).passed = true ↔
      st.passed = true ∧ ∀ tr ∈ st.traces, (f tr).2 = true := by
  simp [lift_check, List.all_eq_true, Bool.and_eq_true]

/-- Any single failing trace clears the lifted check's `passed` flag. -/
theorem lift_check_passed_false_of_mem (f : Trace → Trace × Bool)
    (st : Stream) (tr : Trace) (h : tr ∈ st.traces)
    (hf : (f tr).2 = false) : (lift_check f st).passed = false := by
  rw [Bool.eq_false_iff]
  intro hp
  have := ((lift_check_passed_iff f st).mp hp).2 tr h
  rw [hf] at this
  exact Bool.false_ne_true this

/-! ### Claims about the windowing pipeline -/

/-- C1: when window validation runs on a stream whose traces carry no split
time, every trace receives a `failure` parameter whose reason is exactly
"Cannot check window because no split time available."; the per-trace result
is the trace with only that failure recorded, independent of the duration
thresholds (no duration is computed), for every threshold choice — the stage
is a total function (no exception) and never silently skips. -/
theorem window_checks_without_split_time (st : Stream) (mn ms : ℚ)
    (h : ∀ tr ∈ st.traces, tr.split_time = none) :
    (∀ tr2 ∈ (window_checks st mn ms).traces,
        tr2.get_parameter "failure" =
          some (failure_value
            "Cannot check window because no split time available.")) ∧
    (∀ tr ∈ st.traces, ∀ mn2 ms2 : ℚ,
        window_check_trace mn2 ms2 tr =
          (tr.fail "Cannot check window because no split time available.",
           false)) := by
  have per : ∀ tr ∈ st.traces, ∀ mn2 ms2 : ℚ,
      window_check_trace mn2 ms2 tr =
        (tr.fail "Cannot check window because no split time available.",
         false) := by
    intro tr htr mn2 ms2
    simp [window_check_trace, h tr htr]
  refine ⟨?_, per⟩
  intro tr2 htr2
  rw [window_checks, lift_check_traces] at htr2
  obtain ⟨tr, htr, rfl⟩ := List.mem_map.mp htr2
  rw [per tr htr mn ms]
  exact get_set_parameter_same tr "failure"
    (failure_value "Cannot check window because no split time available.")

theorem window_checks_without_split_time_witness :
    window_check_trace 100 1000 (Trace.mk 0 100 [] []) =
      ((Trace.mk 0 100 [] []).fail
        "Cannot check window because no split time available.", false) :=
  (window_checks_without_split_time ⟨[Trace.mk 0 100 [] []], true⟩ 100 1000
      (fun tr htr => by
        rw [show tr = Trace.mk 0 100 [] [] from by simpa using htr]
        rfl)).2
    (Trace.mk 0 100 [] []) (by simp) 100 1000

/-- C2: for a trace with split and end times set, window validation computes
noise duration = split − start and signal duration = end − split; a short
noise window records exactly "Failed noise window duration check." and clears
the stream's `passed` flag, otherwise a short signal window records exactly
"Failed signal window duration check."; the noise check runs first and the
first failure short-circuits, so each branch records exactly one failure
reason and a trace passing both checks is untouched. -/
theorem window_checks_duration_thresholds (st : Stream) (mn ms s e : ℚ)
    (tr : Trace) (h1 : tr.split_time = some s)
    (h2 : tr.signal_end_time = some e) :
    (s - tr.starttime < mn →
        window_check_trace mn ms tr
          = (tr.fail "Failed noise window duration check.", false)) ∧
    (mn ≤ s - tr.starttime → e - s < ms →
        window_check_trace mn ms tr
          = (tr.fail "Failed signal window duration check.", false)) ∧
    (mn ≤ s - tr.starttime → ms ≤ e - s →
        window_check_trace mn ms tr = (tr, true)) ∧
    (tr ∈ st.traces → (window_check_trace mn ms tr).2 = false →
        (window_checks st mn ms).passed = false) := by
  refine ⟨fun hn => ?_, fun hge hs => ?_, fun hge hge2 => ?_,
    fun htr hf => lift_check_passed_false_of_mem _ st tr htr hf⟩
  · simp [window_check_trace, h1, h2, hn]
  · simp [window_check_trace, h1, h2, not_lt.mpr hge, hs]
  · simp [window_check_trace, h1, h2, not_lt.mpr hge, not_lt.mpr hge2]

theorem window_checks_duration_thresholds_witness :
    window_check_trace 100 1000 fixture_trace
      = (fixture_trace.fail "Failed noise window duration check.", false) ∧
    window_check_trace 20 1000 fixture_trace
      = (fixture_trace.fail "Failed signal window duration check.", false) ∧
    window_check_trace 20 300 fixture_trace = (fixture_trace, true) ∧
    (window_checks ⟨[fixture_trace], true⟩ 100 1000).passed = false := by
  have hA := window_checks_duration_thresholds ⟨[fixture_trace], true⟩
    100 1000 50 450 fixture_trace rfl rfl
  have hB := window_checks_duration_thresholds ⟨[fixture_trace], true⟩
    20 1000 50 450 fixture_trace rfl rfl
  have hC := window_checks_duration_thresholds ⟨[fixture_trace], true⟩
    20 300 50 450 fixture_trace rfl rfl
  refine ⟨hA.1 (by norm_num [fixture_trace]),
    hB.2.1 (by norm_num [fixture_trace]) (by norm_num),
    hC.2.2.1 (by norm_num [fixture_trace]) (by norm_num), ?_⟩
  exact hA.2.2.2 (by simp) (by rw [hA.1 (by norm_num [fixture_trace])])

/-- C3: for a trace with split and end times set, the cut operator trims it
to `[split − sec_before_split, end]`, intersected with the recorded data
span: the resulting end time is exactly `min endtime end` (deterministic);
when the requested window is degenerate or inverted (as with
`sec_before_split = −10000`) the trace is left untouched and the stream is
marked `passed = false` instead of raising, while a stream of valid windows
keeps `passed = true`. -/
theorem cut_window_spec (st : Stream) (sec s e : ℚ) (tr : Trace)
    (h1 : tr.split_time = some s) (h2 : tr.signal_end_time = some e) :
    (e ≤ s - sec → cut_trace sec tr = (tr, false)) ∧
    (s - sec < e → cut_trace sec tr =
        ({ tr with starttime := max tr.starttime (s - sec),
                   endtime := min tr.endtime e }, true)) ∧
    (tr ∈ st.traces → e ≤ s - sec → (cut st sec).passed = false) ∧
    (st.passed = true → (∀ tr2 ∈ st.traces, (cut_trace sec tr2).2 = true) →
        (cut st sec).passed = true) := by
  refine ⟨fun hdeg => ?_, fun hok => ?_, fun htr hdeg => ?_, fun hp hall => ?_⟩
  · simp [cut_trace, h1, h2, hdeg]
  · simp [cut_trace, h1, h2, not_le.mpr hok]
  · refine lift_check_passed_false_of_mem _ st tr htr ?_
    simp [cut_trace, h1, h2, hdeg]
  · exact (lift_check_passed_iff _ st).mpr ⟨hp, hall⟩

theorem cut_window_spec_witness :
    cut_trace (-10000) fixture_trace = (fixture_trace, false) ∧
    (cut ⟨[fixture_trace], true⟩ (-10000)).passed = false ∧
    cut_trace 2 fixture_trace
      = ({ fixture_trace with starttime := 48, endtime := 450 }, true) ∧
    (cut ⟨[fixture_trace], true⟩ 2).passed = true := by
  have hA := cut_window_spec ⟨[fixture_trace], true⟩ (-10000) 50 450
    fixture_trace rfl rfl
  have hB := cut_window_spec ⟨[fixture_trace], true⟩ 2 50 450
    fixture_trace rfl rfl
  refine ⟨hA.1 (by norm_num), hA.2.2.1 (by simp) (by norm_num), ?_, ?_⟩
  · rw [hB.2.1 (by norm_num)]
    norm_num [fixture_trace]
  · refine hB.2.2.2 rfl ?_
    intro tr2 htr2
    rw [show tr2 = fixture_trace from by simpa using htr2]
    rw [hB.2.1 (by norm_num)]

/-- Reading back a freshly written `signal_end` parameter yields its end
time and method tag. -/
theorem signal_end_read (tr : Trace) (q : ℚ) (m : String) :
    ((tr.set_parameter "signal_end"
        (.mapV [("end_time", .time q), ("method", .str m)])).signal_end_time
      = some q) ∧
    ((tr.set_parameter "signal_end"
        (.mapV [("end_time", .time q), ("method", .str m)])).signal_end_method
      = some m) := by
  have hm : ("method" == "end_time") = false := by decide
  constructor
  · rw [Trace.signal_end_time, get_set_parameter_same]
    simp [List.lookup]
  · rw [Trace.signal_end_method, get_set_parameter_same]
    simp [List.lookup, hm]

/-- C4: for every stream, signal-end estimation with a recognized method
writes on each trace a `signal_end` parameter carrying the absolute end time
and the method tag; the resulting duration (end − start) is the same value
for every trace of the stream, and the method table yields the fixed default
390.0 s for "none" and the distinct reproducible reference-event durations
212.9617 s, 149.9617 s and 88.008733 s for "magnitude", "velocity" and
"model". -/
theorem signal_end_method_durations (st : Stream) (ev : Event) (m : String)
    (d : ℚ) (hm : signal_end_duration m = some d) :
    (∀ tr2 ∈ (signal_end st ev m).traces,
        tr2.signal_end_time = some (tr2.starttime + d) ∧
        tr2.signal_end_method = some m) ∧
    signal_end_duration "none" = some 390 ∧
    signal_end_duration "magnitude" = some (2129617 / 10000) ∧
    signal_end_duration "velocity" = some (1499617 / 10000) ∧
    signal_end_duration "model" = some (88008733 / 1000000) ∧
    ((390 : ℚ) ≠ 2129617 / 10000 ∧ (390 : ℚ) ≠ 1499617 / 10000 ∧
     (390 : ℚ) ≠ 88008733 / 1000000 ∧
     (2129617 : ℚ) / 10000 ≠ 1499617 / 10000 ∧
     (2129617 : ℚ) / 10000 ≠ 88008733 / 1000000 ∧
     (1499617 : ℚ) / 10000 ≠ 88008733 / 1000000) := by
  refine ⟨?_, rfl, rfl, rfl, rfl, by norm_num⟩
  intro tr2 htr2
  rw [signal_end] at htr2
  simp only [List.mem_map] at htr2
  obtain ⟨tr, _, rfl⟩ := htr2
  rw [hm]
  have hs : (tr.set_parameter "signal_end"
      (.mapV [("end_time", .time (tr.starttime + d)),
              ("method", .str m)])).starttime = tr.starttime := rfl
  rw [hs]
  exact signal_end_read tr (tr.starttime + d) m

theorem signal_end_method_durations_witness :
    (fixture_trace.set_parameter "signal_end"
        (.mapV [("end_time", .time (fixture_trace.starttime + 2129617 / 10000)),
                ("method", .str "magnitude")])).signal_end_time
      = some (fixture_trace.starttime + 2129617 / 10000) := by
  have h := signal_end_method_durations ⟨[fixture_trace], true⟩ fixture_event
    "magnitude" (2129617 / 10000) rfl
  have hmem : fixture_trace.set_parameter "signal_end"
      (.mapV [("end_time", .time (fixture_trace.starttime + 2129617 / 10000)),
              ("method", .str "magnitude")])
      ∈ (signal_end ⟨[fixture_trace], true⟩ fixture_event "magnitude").traces := by
    simp [signal_end, signal_end_duration]
  have hq := (h.1 _ hmem).1
  have hs : (fixture_trace.set_parameter "signal_end"
      (.mapV [("end_time", .time (fixture_trace.starttime + 2129617 / 10000)),
              ("method", .str "magnitude")])).starttime
      = fixture_trace.starttime := rfl
  rw [hs] at hq
  exact hq

/-- C5: on a stream with `passed = true`, SNR corner-frequency estimation
writes a `corner_frequencies` parameter on every trace with highpass exactly
0.024919013207076998 and lowpass exactly 100.0, the same pair for each trace
(deterministic given a fixed input); on a stream with `passed = false` the
traces are skipped and every parameter is left unset (the stream is returned
unchanged). -/
theorem corner_frequencies_snr_spec (st : Stream) (ev : Event) :
    (st.passed = true →
        ∀ tr2 ∈ (get_corner_frequencies st ev "snr").traces,
          tr2.get_parameter "corner_frequencies"
            = some (corner_value (24919013207076998 / 10 ^ 18) 100)) ∧
    (st.passed = false → get_corner_frequencies st ev "snr" = st) := by
  constructor
  · intro hp tr2 htr2
    rw [get_corner_frequencies, if_pos hp] at htr2
    simp only [List.mem_map] at htr2
    obtain ⟨tr, _, rfl⟩ := htr2
    exact get_set_parameter_same tr "corner_frequencies"
      (corner_value snr_highpass snr_lowpass)
  · intro hp
    rw [get_corner_frequencies, if_neg (by simp [hp])]

theorem corner_frequencies_snr_spec_witness :
    (fixture_trace.set_parameter "corner_frequencies"
        (corner_value snr_highpass snr_lowpass)).get_parameter
          "corner_frequencies"
      = some (corner_value (24919013207076998 / 10 ^ 18) 100) ∧
    get_corner_frequencies ⟨[fixture_trace], false⟩ fixture_event "snr"
      = ⟨[fixture_trace], false⟩ := by
  have h1 := (corner_frequencies_snr_spec ⟨[fixture_trace], true⟩
    fixture_event).1 rfl
  have h2 := (corner_frequencies_snr_spec ⟨[fixture_trace], false⟩
    fixture_event).2 rfl
  refine ⟨?_, h2⟩
  refine h1 _ ?_
  simp [get_corner_frequencies]

/-! ### Claims about the stream invariant and aliasing -/

/-- C6: a trace on which a pipeline stage records a `failure` parameter
clears the stream's `passed` flag (for both window validation and the cut
operator); a failing per-trace check always leaves a `failure` parameter
behind while a passing one leaves the trace untouched, so `passed` stays true
until some trace or stage marks failure; and `passed` is the predicate
downstream corner-frequency estimation consults — a non-passed stream is not
processed further. -/
theorem passed_flag_single_source (st : Stream) (mn ms sec : ℚ)
    (ev : Event) (m : String) :
    (∀ tr ∈ st.traces, (window_check_trace mn ms tr).2 = false →
        (window_checks st mn ms).passed = false) ∧
    (∀ tr ∈ st.traces, (cut_trace sec tr).2 = false →
        (cut st sec).passed = false) ∧
    (∀ tr : Trace, (window_check_trace mn ms tr).2 = false →
        ∃ r, ((window_check_trace mn ms tr).1).get_parameter "failure"
          = some (failure_value r)) ∧
    (∀ tr : Trace, (window_check_trace mn ms tr).2 = true →
        (window_check_trace mn ms tr).1 = tr) ∧
    ((window_checks st mn ms).passed = true ↔
        st.passed = true ∧
        ∀ tr ∈ st.traces, (window_check_trace mn ms tr).2 = true) ∧
    (st.passed = false → get_corner_frequencies st ev m = st) := by
  refine ⟨fun tr htr hf => lift_check_passed_false_of_mem _ st tr htr hf,
    fun tr htr hf => lift_check_passed_false_of_mem _ st tr htr hf,
    fun tr hf => ?_, fun tr ht => ?_,
    lift_check_passed_iff _ st, fun hp => ?_⟩
  · unfold window_check_trace at hf ⊢
    cases hsp : tr.split_time with
    | none =>
      simp only [hsp]
      exact ⟨_, get_set_parameter_same tr "failure" _⟩
    | some s =>
      simp only [hsp] at hf ⊢
      by_cases hn : s - tr.starttime < mn
      · simp only [hn, if_true]
        exact ⟨_, get_set_parameter_same tr "failure" _⟩
      · simp only [hn, if_false] at hf ⊢
        cases hse : tr.signal_end_time with
        | none => simp [hse] at hf
        | some e =>
          simp only [hse] at hf ⊢
          by_cases hs : e - s < ms
          · simp only [hs, if_true]
            exact ⟨_, get_set_parameter_same tr "failure" _⟩
          · simp [hs] at hf
  · unfold window_check_trace at ht ⊢
    cases hsp : tr.split_time with
    | none => simp [hsp] at ht
    | some s =>
      simp only [hsp] at ht ⊢
      by_cases hn : s - tr.starttime < mn
      · simp [hn] at ht
      · simp only [hn, if_false] at ht ⊢
        cases hse : tr.signal_end_time with
        | none => rfl
        | some e =>
          simp only [hse] at ht ⊢
          by_cases hs : e - s < ms
          · simp [hs] at ht
          · simp [hs]
  · exact if_neg (by simp [hp])

theorem passed_flag_single_source_witness :
    (window_checks ⟨[fixture_trace], true⟩ 100 1000).passed = false ∧
    get_corner_frequencies ⟨[fixture_trace], false⟩ fixture_event "snr"
      = ⟨[fixture_trace], false⟩ := by
  have h := passed_flag_single_source ⟨[fixture_trace], true⟩ 100 1000 2
    fixture_event "snr"
  have h2 := passed_flag_single_source ⟨[fixture_trace], false⟩ 100 1000 2
    fixture_event "snr"
  refine ⟨h.1 fixture_trace (by simp) ?_, h2.2.2.2.2.2 rfl⟩
  have hsp : fixture_trace.split_time = some 50 := rfl
  have : window_check_trace 100 1000 fixture_trace
      = (fixture_trace.fail "Failed noise window duration check.", false) := by
    simp only [window_check_trace, hsp]
    norm_num [fixture_trace]
  rw [this]

/-- Reading the k-th deep copy gives the k-th original trace, when every
copied handle is live. -/
theorem filterMap_get_nth (h : Heap) (hs : List Nat)
    (hv : ∀ i ∈ hs, (h.get i).isSome) (k : Nat) :
    (hs.filterMap h.get)[k]? = (hs[k]?).bind h.get := by
  induction hs generalizing k with
  | nil => cases k <;> rfl
  | cons i rest ih =>
    obtain ⟨tr, htr⟩ := Option.isSome_iff_exists.mp (hv i (by simp))
    rw [List.filterMap_cons, htr]
    cases k with
    | zero => simp [htr]
    | succ k2 =>
      simp only [List.getElem?_cons_succ]
      exact ih (fun i2 hi2 => hv i2 (List.mem_cons_of_mem _ hi2)) k2

/-- Deep-copying live handles preserves the handle count. -/
theorem filterMap_get_length (h : Heap) (hs : List Nat)
    (hv : ∀ i ∈ hs, (h.get i).isSome) :
    (hs.filterMap h.get).length = hs.length := by
  induction hs with
  | nil => rfl
  | cons i rest ih =>
    obtain ⟨tr, htr⟩ := Option.isSome_iff_exists.mp (hv i (by simp))
    rw [List.filterMap_cons, htr, List.length_cons,
      ih (fun i2 hi2 => hv i2 (List.mem_cons_of_mem _ hi2)), List.length_cons]

/-- C9: copying a stream deep-copies each trace — with its parameter mapping
and provenance log — into fresh heap cells disjoint from the original's,
and into a fresh stream record with the same `passed` flag; reading the k-th
trace through the copy equals reading it through the original, every
original handle still reads its old trace, and mutating any handle outside
the original's (in particular any handle of the copy) leaves every trace of
the original unchanged: no aliasing between original and copy. -/
theorem copy_stream_no_aliasing (h : Heap) (st : StreamRef)
    (hv : ∀ i ∈ st.handles, i < h.data.length) :
    ((copy_stream h st).2.passed = st.passed) ∧
    (∀ j ∈ (copy_stream h st).2.handles, j ∉ st.handles) ∧
    (∀ i ∈ st.handles, (copy_stream h st).1.get i = h.get i) ∧
    (∀ k : Nat,
        ((copy_stream h st).2.handles[k]?).bind (copy_stream h st).1.get
          = (st.handles[k]?).bind h.get) ∧
    (∀ j tr2, j ∉ st.handles →
        ∀ i ∈ st.handles, ((copy_stream h st).1.set j tr2).get i = h.get i) := by
  have hvs : ∀ i ∈ st.handles, (h.get i).isSome := by
    intro i hi
    rw [Heap.get, List.getElem?_eq_getElem (hv i hi)]
    rfl
  have horig : ∀ i ∈ st.handles, (copy_stream h st).1.get i = h.get i := by
    intro i hi
    rw [copy_stream, Heap.get, Heap.get]
    exact List.getElem?_append_left (hv i hi)
  refine ⟨rfl, ?_, horig, ?_, ?_⟩
  · intro j hj hmem
    rw [copy_stream] at hj
    simp only [List.mem_map, List.mem_range] at hj
    obtain ⟨k, _, rfl⟩ := hj
    exact absurd (hv _ hmem) (by omega)
  · intro k
    rw [copy_stream]
    simp only [List.getElem?_map]
    by_cases hk : k < (st.handles.filterMap h.get).length
    · rw [List.getElem?_range (by simpa [filterMap_get_length h st.handles hvs]
        using hk)]
      show Heap.get ⟨h.data ++ List.filterMap h.get st.handles⟩
          (h.data.length + k) = st.handles[k]?.bind h.get
      rw [Heap.get, List.getElem?_append_right (Nat.le_add_right _ _),
        Nat.add_sub_cancel_left]
      exact filterMap_get_nth h st.handles hvs k
    · rw [List.getElem?_eq_none (by simpa using Nat.le_of_not_lt hk)]
      have hlen : st.handles.length ≤ k := by
        rw [← filterMap_get_length h st.handles hvs]
        exact Nat.le_of_not_lt hk
      rw [List.getElem?_eq_none hlen]
      rfl
  · intro j tr2 hj i hi
    have hne : j ≠ i := fun e => hj (e ▸ hi)
    rw [Heap.set, Heap.get, List.getElem?_set_ne (by omega)]
    exact horig i hi

theorem copy_stream_no_aliasing_witness :
    ((copy_stream ⟨[fixture_trace]⟩ ⟨[0], true⟩).1.set 1
        (fixture_trace.fail "Failed noise window duration check.")).get 0
      = some fixture_trace ∧
    (copy_stream ⟨[fixture_trace]⟩ ⟨[0], true⟩).2.handles = [1] := by
  have h := copy_stream_no_aliasing ⟨[fixture_trace]⟩ ⟨[0], true⟩
    (by intro i hi; simp at hi; subst hi; decide)
  refine ⟨?_, rfl⟩
  have := h.2.2.2.2 1
    (fixture_trace.fail "Failed noise window duration check.")
    (by simp) 0 (by simp)
  rw [this]
  rfl

/-! ### Claims about the gminfo driver -/

/-- The errors table built by `render_concise` collects exactly the files
whose read failed, in file order, with their error strings. -/
theorem render_concise_errors (read : String → Except String (List Row))
    (files : List String) :
    (render_concise read files).2 = files.filterMap (fun p =>
      match read p with
      | .ok _ => none
      | .error e => some ⟨p, e⟩) := by
  induction files with
  | nil => rfl
  | cons p rest ih =>
    rw [render_concise, List.filterMap_cons]
    cases hr : read p <;> simp [hr, ih]

/-- C10: `App.main` fails with exactly "Directory '<dir>' does not exist."
when its argument is not an existing directory — and does so before reading
any files (any reader and walker give the same outcome) — while on an
existing directory it raises no such error: it returns the sorted catalog
together with an errors table collecting exactly the files whose read
failed, in file order, without aborting the batch. -/
theorem gminfo_main_contract (fs : FileSys) (dir : String) :
    (fs.is_dir dir = false →
        App.main fs dir
          = .error ("Directory '" ++ dir ++ "' does not exist.") ∧
        ∀ read2 walk2,
          App.main ⟨fs.is_dir, walk2, read2⟩ dir
            = .error ("Directory '" ++ dir ++ "' does not exist.")) ∧
    (fs.is_dir dir = true →
        App.main fs dir
          = .ok (sort_rows (render_concise fs.read_data (fs.walk dir)).1,
              (fs.walk dir).filterMap (fun p =>
                match fs.read_data p with
                | .ok _ => none
                | .error e => some ⟨p, e⟩))) := by
  constructor
  · intro hp
    constructor
    · rw [App.main, if_pos (by simp [hp])]
    · intro read2 walk2
      rw [App.main, if_pos (by simp [hp])]
  · intro hp
    rw [App.main, if_neg (by simp [hp]), render_dir,
      render_concise_errors fs.read_data (fs.walk dir)]

theorem gminfo_main_contract_witness :
    App.main fixture_fs "missing"
      = .error "Directory 'missing' does not exist." ∧
    App.main fixture_fs "data"
      = .ok ([⟨"data/a.v1", "CI", "CLC", "HN1"⟩],
             [⟨"data/b.v1", "unreadable"⟩]) := by
  constructor
  · have h := ((gminfo_main_contract fixture_fs "missing").1 (by decide)).1
    rw [h]
    rfl
  · have h := (gminfo_main_contract fixture_fs "data").2 (by decide)
    rw [h]
    rfl

end GM
